import Mathlib

/-!
# Verification of the `quasar upgrade` command and the extension resolver

Shallow embedding of two source files of the repository:

* `src/cli/bin/quasar-upgrade` — the dependency-upgrade command: a version
  matcher (`getLatestVersion`), the registry adapter's failure handling, and
  the upgrade orchestrator (`upgradeQuasar`).
* `src/app-vite/lib/helpers/resolve-extension.js` — the extension resolver.

JavaScript runtime values produced by `JSON.parse` (and the `undefined` that
object indexing can produce) are modelled by the inductive `JVal`; a thrown
exception is modelled by `Except.error ()`. External collaborators (the
package-manager process, the filesystem, the installed-package lookup) are
explicit inputs: the outcome of the `execSync` + `JSON.parse` try-block is
passed in as an `Option JVal` (`none` = the catch branch was taken, i.e. the
command failed or its output was not parseable as JSON), the filesystem as an
existence predicate, and the installed lookup as a function.
-/

namespace Quasar

/-- JavaScript runtime values, as far as this program manipulates them:
`JSON.parse` results plus the `undefined` that member access may produce.
Numbers are modelled as integers (the program never computes with numeric
JSON payloads; registry version lists are arrays of strings). -/
inductive JVal where
  | undefined : JVal
  | null : JVal
  | bool : Bool → JVal
  | num : Int → JVal
  | str : String → JVal
  | arr : List JVal → JVal
  | obj : List (String × JVal) → JVal
deriving Repr

mutual

/-- Boolean equality on `JVal` (structural). -/
def JVal.beq : JVal → JVal → Bool
  | .undefined, .undefined => true
  | .null, .null => true
  | .bool a, .bool b => a == b
  | .num a, .num b => a == b
  | .str a, .str b => a == b
  | .arr xs, .arr ys => JVal.beqArr xs ys
  | .obj fs, .obj gs => JVal.beqObj fs gs
  | _, _ => false

def JVal.beqArr : List JVal → List JVal → Bool
  | [], [] => true
  | x :: xs, y :: ys => JVal.beq x y && JVal.beqArr xs ys
  | _, _ => false

def JVal.beqObj : List (String × JVal) → List (String × JVal) → Bool
  | [], [] => true
  | (k, v) :: fs, (l, w) :: gs => k == l && (JVal.beq v w && JVal.beqObj fs gs)
  | _, _ => false

end

mutual

theorem JVal.beq_sound : ∀ a b : JVal, JVal.beq a b = true → a = b
  | .undefined, .undefined, _ => rfl
  | .null, .null, _ => rfl
  | .bool a, .bool b, h => by simpa [JVal.beq] using h
  | .num a, .num b, h => by simpa [JVal.beq] using h
  | .str a, .str b, h => by simpa [JVal.beq] using h
  | .arr xs, .arr ys, h => by
      rw [JVal.beqArr_sound xs ys (by simpa [JVal.beq] using h)]
  | .obj fs, .obj gs, h => by
      rw [JVal.beqObj_sound fs gs (by simpa [JVal.beq] using h)]

theorem JVal.beqArr_sound : ∀ xs ys : List JVal, JVal.beqArr xs ys = true → xs = ys
  | [], [], _ => rfl
  | x :: xs, y :: ys, h => by
      have h' : JVal.beq x y = true ∧ JVal.beqArr xs ys = true := by
        simpa [JVal.beqArr, Bool.and_eq_true] using h
      rw [JVal.beq_sound x y h'.1, JVal.beqArr_sound xs ys h'.2]

theorem JVal.beqObj_sound :
    ∀ fs gs : List (String × JVal), JVal.beqObj fs gs = true → fs = gs
  | [], [], _ => rfl
  | (k, v) :: fs, (l, w) :: gs, h => by
      have h' : k = l ∧ (JVal.beq v w = true ∧ JVal.beqObj fs gs = true) := by
        simpa [JVal.beqObj, Bool.and_eq_true] using h
      rw [h'.1, JVal.beq_sound v w h'.2.1, JVal.beqObj_sound fs gs h'.2.2]

end

mutual

theorem JVal.beq_refl : ∀ a : JVal, JVal.beq a a = true
  | .undefined => rfl
  | .null => rfl
  | .bool a => by simp [JVal.beq]
  | .num a => by simp [JVal.beq]
  | .str a => by simp [JVal.beq]
  | .arr xs => by simpa [JVal.beq] using JVal.beqArr_refl xs
  | .obj fs => by simpa [JVal.beq] using JVal.beqObj_refl fs

theorem JVal.beqArr_refl : ∀ xs : List JVal, JVal.beqArr xs xs = true
  | [] => rfl
  | x :: xs => by
      simp [JVal.beqArr, Bool.and_eq_true, JVal.beq_refl x, JVal.beqArr_refl xs]

theorem JVal.beqObj_refl : ∀ fs : List (String × JVal), JVal.beqObj fs fs = true
  | [] => rfl
  | (k, v) :: fs => by
      simp [JVal.beqObj, Bool.and_eq_true, JVal.beq_refl v, JVal.beqObj_refl fs]

end

instance : DecidableEq Quasar.JVal := fun a b =>
  if h : JVal.beq a b = true then
    .isTrue (JVal.beq_sound a b h)
  else
    .isFalse (fun he => h (he ▸ JVal.beq_refl a))

instance : DecidableEq (Except Unit Quasar.JVal) := fun a b =>
  match a, b with
  | .ok x, .ok y =>
      if h : x = y then .isTrue (by rw [h])
      else .isFalse (fun he => h (by cases he; rfl))
  | .error x, .error y => .isTrue (by cases x; cases y; rfl)
  | .ok _, .error _ => .isFalse (fun he => Except.noConfusion he)
  | .error _, .ok _ => .isFalse (fun he => Except.noConfusion he)

mutual

/-- JavaScript `ToString` coercion, used when a `JVal` is interpolated into a
template literal or tested by a regex. -/
def jsToString : JVal → String
  | .undefined => "undefined"
  | .null => "null"
  | .bool b => cond b "true" "false"
  | .num n => toString n
  | .str s => s
  | .obj _ => "[object Object]"
  | .arr xs => jsArrJoin xs

/-- `Array.prototype.join(',')`, as invoked by `Array.prototype.toString`. -/
def jsArrJoin : List JVal → String
  | [] => ""
  | [v] => jsElemString v
  | v :: w :: vs => jsElemString v ++ "," ++ jsArrJoin (w :: vs)

/-- Stringification of an array element inside `join`: `null` and `undefined`
become the empty string, everything else stringifies as usual. -/
def jsElemString : JVal → String
  | .undefined => ""
  | .null => ""
  | .bool b => cond b "true" "false"
  | .num n => toString n
  | .str s => s
  | .obj _ => "[object Object]"
  | .arr xs => jsArrJoin xs

end

/-- JavaScript member access `v.field`: throws on `null`/`undefined`,
looks the field up on objects (missing field gives `undefined`), and gives
`undefined` on primitives and arrays (none of the fields this program reads
exist on their prototypes). -/
def JVal.getField : JVal → String → Except Unit JVal
  | .undefined, _ => .error ()
  | .null, _ => .error ()
  | .obj fs, k => .ok ((fs.lookup k).getD .undefined)
  | _, _ => .ok .undefined

/-- JavaScript strict equality against a string literal (`v === 'error'`). -/
def JVal.strictEqStr : JVal → String → Bool
  | .str s, t => s == t
  | _, _ => false

/-- `versions[versions.length - 1]`: JavaScript indexing at `length - 1`.
Throws on `null`/`undefined` (the `.length` access throws); on an array it is
the last element (`undefined` when empty); on a string it is the last
character as a one-character string (`undefined` when empty); on the other
primitives `.length` is `undefined`, `undefined - 1` is `NaN`, and indexing
at `NaN` gives `undefined`; on an object the `length` field (if numeric)
determines the looked-up key, anything else indexes at key `"NaN"`. -/
def JVal.lastIndexed : JVal → Except Unit JVal
  | .undefined => .error ()
  | .null => .error ()
  | .arr xs => .ok ((xs.getLast?).getD .undefined)
  | .str s =>
      .ok (match s.toList.getLast? with
           | some c => .str (String.mk [c])
           | none => .undefined)
  | .bool _ => .ok .undefined
  | .num _ => .ok .undefined
  | .obj fs =>
      .ok (match fs.lookup "length" with
           | some (.num n) => ((fs.lookup (toString (n - 1))).getD .undefined)
           | _ => ((fs.lookup "NaN").getD .undefined))

/-- `versions.filter(fn)`: only arrays have a `filter` method, every other
value this program can reach here makes the call throw. -/
def JVal.filterJS (p : JVal → Bool) : JVal → Except Unit JVal
  | .arr xs => .ok (.arr (xs.filter p))
  | _ => .error ()

/-! ## The version regular expressions

`const versionRegex = /^(\d+)\.[\d]+\.[\d]+-?(alpha|beta|rc)?/` and the
selection regex built in `getLatestVersion` are translated into explicit
prefix-parsing functions over `List Char`, preserving the JavaScript
semantics: `^` anchors at the start, greedy `\d+` takes the maximal digit
run, the trailing `-?(alpha|beta|rc)?` parts are optional, and only the
second (no-pre-release) form ends with the `$` anchor. -/

/-- Maximal (possibly empty) digit prefix of a character list, and the rest. -/
def spanDigits : List Char → List Char × List Char
  | [] => ([], [])
  | c :: cs =>
      if c.isDigit then
        (c :: (spanDigits cs).1, (spanDigits cs).2)
      else
        ([], c :: cs)

/-- Consuming the literal `\.` of the pattern: the remainder after a leading
dot, `none` when the next character is not a dot. -/
def expectDot : List Char → Option (List Char)
  | '.' :: r => some r
  | _ => none

/-- Consuming the optional hyphen `-?` of the pattern. -/
def skipDash : List Char → List Char
  | '-' :: r => r
  | r => r

/-- Consuming the optional tag `(alpha|beta|rc)?`, alternatives tried left to
right, each matched as a prefix of the remainder (the pattern has no end
anchor after it). -/
def matchTag (r : List Char) : Option (List Char) :=
  if ("alpha".toList).isPrefixOf r then some "alpha".toList
  else if ("beta".toList).isPrefixOf r then some "beta".toList
  else if ("rc".toList).isPrefixOf r then some "rc".toList
  else none

/-- `curVersion.match(versionRegex)` restricted to the two capture groups the
program destructures: `none` when the regex does not match (JS `match`
returns `null`), otherwise `(major digits, optional pre-release tag)`.
The pattern is `^(\d+)\.[\d]+\.[\d]+-?(alpha|beta|rc)?` — unanchored at the
end, so any remainder after the matched prefix is allowed. -/
def matchVersionRegex (s : List Char) : Option (List Char × Option (List Char)) :=
  if (spanDigits s).1 = [] then none else
  match expectDot (spanDigits s).2 with
  | none => none
  | some r2 =>
      if (spanDigits r2).1 = [] then none else
      match expectDot (spanDigits r2).2 with
      | none => none
      | some r4 =>
          if (spanDigits r4).1 = [] then none else
          some ((spanDigits s).1, matchTag (skipDash (spanDigits r4).2))

/-- `regex.test(version)` for the selection regex built in `getLatestVersion`:

* `majorAny = true` (policy `--major`): the major part of the pattern is
  `(\d+)`; otherwise it is the literal digit string `major` taken from the
  current version.
* `pre = true` (current version has a pre-release tag, or policy
  `--prerelease`): the pattern is `^MAJOR\.(\d+)\.(\d+)-?(alpha|beta|rc)?` —
  everything after the second dotted number is optional and the pattern is
  unanchored at the end, so the test succeeds as soon as the
  `MAJOR.minor.patch` prefix parses, whatever follows.
* `pre = false`: the pattern is `^MAJOR\.(\d+)\.(\d+)$`, anchored at both
  ends. -/
def testSelect (majorAny : Bool) (major : List Char) (pre : Bool) (s : List Char) : Bool :=
  let rest? : Option (List Char) :=
    if majorAny then
      if (spanDigits s).1 = [] then none else some (spanDigits s).2
    else
      if major.isPrefixOf s then some (s.drop major.length) else none
  match rest? with
  | none => false
  | some r =>
      match expectDot r with
      | none => false
      | some r2 =>
          if (spanDigits r2).1 = [] then false else
          match expectDot (spanDigits r2).2 with
          | none => false
          | some r4 =>
              if (spanDigits r4).1 = [] then false
              else if pre then true
              else decide ((spanDigits r4).2 = [])

/-! ## `getLatestVersion` -/

/-- The boolean command-line flags consumed by the program
(`minimist` aliases `-i`/`--install`, `-p`/`--prerelease`, `-m`/`--major`). -/
structure Argv where
  install : Bool
  prerelease : Bool
  major : Bool
deriving DecidableEq, Repr

/-- The detected package manager (`require('../lib/node-packager')`). -/
inductive Packager where
  | yarn : Packager
  | npm : Packager
deriving DecidableEq, Repr

def Packager.name : Packager → String
  | .yarn => "yarn"
  | .npm => "npm"

/-- `getLatestVersion (packager, packageName, curVersion)`.

`registryOutcome` is the outcome of the
`JSON.parse(execSync(packager + ' info ' + packageName + ' versions --json'))`
try-block: `none` means the catch branch was taken (the command failed or its
output was not parseable as JSON), `some v` means the output parsed to `v`.
`curVersion` is `null` (`none`) or a string. The result is `.error ()` when
the JavaScript function would throw, otherwise `.ok` of the returned value
(`JVal.null` for the explicit `return null`, possibly `JVal.undefined` when an
out-of-range index is returned). -/
def getLatestVersion (argv : Argv) (packager : Packager)
    (registryOutcome : Option JVal) (curVersion : Option String) :
    Except Unit JVal :=
  match registryOutcome with
  | none => .ok .null
  | some v0 => do
      -- if (versions.type === 'error') return null
      let t ← v0.getField "type"
      if t.strictEqStr "error" then
        return .null
      else
        -- if (packager === 'yarn') versions = versions.data
        let versions ← if packager = .yarn then v0.getField "data" else pure v0
        match curVersion with
        | none =>
            -- if (curVersion === null) return versions[versions.length - 1]
            versions.lastIndexed
        | some cv =>
            -- const [, major, prerelease] = curVersion.match(versionRegex)
            match matchVersionRegex cv.toList with
            | none => .error ()
            | some (major, prerelease) =>
                let filtered ← versions.filterJS (fun v =>
                  testSelect argv.major major (prerelease.isSome || argv.prerelease)
                    (jsToString v).toList)
                filtered.lastIndexed

/-! ## The upgrade orchestrator (`upgradeQuasar`)

The orchestrator's collaborators are explicit inputs:

* `m : Manifest` — the project's `package.json` dependency groups, each an
  association list (`none` models a `package.json` without that key, whose
  indexing in JavaScript throws);
* `getPkgVersion` — `require('../lib/get-package-json')(root)` followed by
  the `.version` projection: `none` when the package is not installed;
* `registry` — per package name, the outcome of the `execSync`+`JSON.parse`
  try-block of `getLatestVersion` (see above);
* `root` — the project root directory.

`console.log`/`log` calls are recorded as a list of output strings with the
`kolorist` color decoration stripped (the spec marks color as cosmetic) and
the logger's own line prefix omitted (`../lib/logger` is an external
collaborator). `removeSync` calls and `spawn` invocations are recorded as a
list of `Effect`s. A thrown exception aborts the run as `.error ()`; the
effect trace of an aborted run is not modelled. -/

/-- A dependency group of `package.json`. -/
inductive Group where
  | dependencies : Group
  | devDependencies : Group
deriving DecidableEq, Repr

/-- The project manifest (`package.json`): each group is an association list
from package name to version-range string, `none` when the key is absent. -/
structure Manifest where
  dependencies : Option (List (String × String))
  devDependencies : Option (List (String × String))
deriving DecidableEq, Repr

/-- `Object.keys(pkg[type] || {})`, in insertion order. -/
def Manifest.groupKeys (m : Manifest) : Group → List String
  | .dependencies => ((m.dependencies).getD []).map Prod.fst
  | .devDependencies => ((m.devDependencies).getD []).map Prod.fst

/-- An entry of the upgrade plan (`deps[type].push({packageName, latestVersion})`).
`latestVersion` is kept as the JavaScript value `getLatestVersion` returned
(a string in every well-formed run, but the program never checks). -/
structure PlanEntry where
  packageName : String
  latestVersion : JVal
deriving DecidableEq, Repr

/-- The orchestrator's mutable scan state: the two plan lists, the
`updateAvailable` and `removeDeprecatedAppPkg` flags, and the console output
produced so far. -/
structure ScanState where
  dependencies : List PlanEntry
  devDependencies : List PlanEntry
  updateAvailable : Bool
  removeDeprecatedAppPkg : Bool
  output : List String
deriving DecidableEq, Repr

def ScanState.plan (st : ScanState) : Group → List PlanEntry
  | .dependencies => st.dependencies
  | .devDependencies => st.devDependencies

/-- Append a plan entry to one group's list (`deps[type].push(...)`) and set
`updateAvailable = true` (the two statements of the same branch). -/
def ScanState.pushEntry (st : ScanState) (g : Group) (e : PlanEntry) : ScanState :=
  match g with
  | .dependencies =>
      { st with dependencies := st.dependencies ++ [e], updateAvailable := true }
  | .devDependencies =>
      { st with devDependencies := st.devDependencies ++ [e], updateAvailable := true }

def ScanState.addOutput (st : ScanState) (ls : List String) : ScanState :=
  { st with output := st.output ++ ls }

/-- An external side effect of the execute phase. -/
inductive Effect where
  | removeDir : String → Effect
  | spawnCmd : Packager → List String → Effect
deriving DecidableEq, Repr

/-- Truthiness of a JavaScript value that is `undefined`/absent or a string. -/
def jsTruthy : Option String → Bool
  | none => false
  | some s => s != ""

/-- `curVersion !== latestVersion` where `curVersion` is `null` or a string
and `latestVersion` is the value `getLatestVersion` returned. Values of
different types are strictly unequal; no reference comparison arises because
the left side is never an object. -/
def jsStrictNe (cur : Option String) (lv : JVal) : Bool :=
  match cur, lv with
  | none, .null => false
  | some s, .str t => s != t
  | _, _ => true

/-- `curVersion === null ? red('Missing!') : curVersion` (color stripped). -/
def currentDisplay : Option String → String
  | none => "Missing!"
  | some s => s

/-- Lines 145–164 of `quasar-upgrade`: the per-package classification, run
after the quasar-name filter and the legacy rename have been applied.
`packageName` is the (possibly substituted) name used for the rest of the
iteration. -/
def scanStep2 (argv : Argv) (packager : Packager) (registry : String → Option JVal)
    (group : Group) (packageName : String) (curVersion : Option String)
    (st : ScanState) : Except Unit ScanState := do
  let latestVersion ← getLatestVersion argv packager (registry packageName) curVersion
  let current := currentDisplay curVersion
  if latestVersion = JVal.null then
    pure (st.addOutput
      [" " ++ packageName ++ ": " ++ current ++ " → Skipping!",
       "   (⚠️  NPM server returned an error, so we cannot detect latest version)"])
  else if jsStrictNe curVersion latestVersion then
    pure ((st.pushEntry group ⟨packageName, latestVersion⟩).addOutput
      [" " ++ packageName ++ ": " ++ current ++ " → " ++ jsToString latestVersion])
  else
    pure st

/-- JavaScript `s.startsWith(pre)`: a character-level prefix test. -/
def jsStartsWith (s pre : String) : Bool :=
  pre.toList.isPrefixOf s.toList

/-- The quasar-package predicate of line 130 (negated: the `continue` guard). -/
def isQuasarPackage (packageName : String) : Bool :=
  packageName == "quasar" || packageName == "eslint-plugin-quasar" ||
    jsStartsWith packageName "@quasar/"

/-- Lines 128–143 of `quasar-upgrade`: one loop iteration for one declared
package name — the quasar-name filter, the installed-version lookup, and the
`@quasar/app` v3 → `@quasar/app-webpack` rename — followed by `scanStep2`. -/
def scanPackage (argv : Argv) (packager : Packager) (registry : String → Option JVal)
    (getPkgVersion : String → Option String) (group : Group)
    (st : ScanState) (packageName : String) : Except Unit ScanState :=
  if isQuasarPackage packageName = false then
    pure st
  else
    let curVersion := getPkgVersion packageName
    if packageName == "@quasar/app"
        && (match curVersion with
            | some s => s != "" && jsStartsWith s "3."
            | none => false) then
      scanStep2 argv packager registry group "@quasar/app-webpack" curVersion
        { st with removeDeprecatedAppPkg := true }
    else
      scanStep2 argv packager registry group packageName curVersion st

/-- The inner `for (let packageName of Object.keys(pkg[type] || {}))` loop. -/
def scanGroup (argv : Argv) (packager : Packager) (registry : String → Option JVal)
    (getPkgVersion : String → Option String) (group : Group)
    (names : List String) (st : ScanState) : Except Unit ScanState :=
  names.foldlM (fun st name => scanPackage argv packager registry getPkgVersion group st name) st

/-- The outer `for (const type of Object.keys(deps))` loop:
`dependencies` first, then `devDependencies`. -/
def scanAll (argv : Argv) (packager : Packager) (registry : String → Option JVal)
    (getPkgVersion : String → Option String) (m : Manifest)
    (st : ScanState) : Except Unit ScanState := do
  let st1 ← scanGroup argv packager registry getPkgVersion .dependencies
    (m.groupKeys .dependencies) st
  scanGroup argv packager registry getPkgVersion .devDependencies
    (m.groupKeys .devDependencies) st1

/-- The verbatim argument of the `console.log` on line 171; the
`Congrats!` phrase inside it is parsed by the `@quasar/wizard` AE. -/
def congratsLine : String := "  Congrats! All Quasar packages are up to date.\n"

/-- Lines 176–178: the suggested re-run parameters. -/
def previewParams (argv : Argv) : List String :=
  ["-i"] ++ (if argv.prerelease then ["-p"] else []) ++ (if argv.major then ["-m"] else [])

/-- Lines 180–183: the preview report printed when `--install` is absent. -/
def previewLines (argv : Argv) : List String :=
  [" See https://quasar.dev/start/release-notes for release notes.",
   " Run \x22quasar upgrade " ++ String.intercalate " " (previewParams argv)
     ++ "\x22 to do the actual upgrade."]

/-- `path.join(root, 'node_modules', pkgName)` / the equivalent single-string
join of lines 197 and 215, on a POSIX-style root with relative segments. -/
def nodeModulesPath (root pkgName : String) : String :=
  root ++ "/node_modules/" ++ pkgName

/-- Lines 191–193: the uninstall parameters for the deprecated
`@quasar/app` package (the `--save--dev` literal is the source's own). -/
def removeAppParams : Packager → List String
  | .yarn => ["remove", "@quasar/app"]
  | .npm => ["uninstall", "--save--dev", "@quasar/app"]

/-- Lines 196–200: the effects of the legacy-package removal — delete its
installed files, then spawn the uninstall command. -/
def removeAppEffects (packager : Packager) (root : String) : List Effect :=
  [.removeDir (nodeModulesPath root "@quasar/app"),
   .spawnCmd packager (removeAppParams packager)]

/-- Lines 208–210: the base install parameters per group. -/
def installBaseParams (packager : Packager) (group : Group) : List String :=
  match packager with
  | .yarn =>
      match group with
      | .devDependencies => ["add", "--dev"]
      | .dependencies => ["add"]
  | .npm =>
      ["install",
       "--save" ++ (match group with | .devDependencies => "--dev" | .dependencies => "")]

/-- JavaScript indexing `groupObject[key]` where the group object may be
absent from the manifest (indexing `undefined` throws). -/
def jsIndexGroup : Option (List (String × String)) → String → Except Unit (Option String)
  | none, _ => .error ()
  | some l, k => .ok (l.lookup k)

/-- Lines 217–221: `pkg.dependencies[name] || pkg.devDependencies[name] || '^'`
with JavaScript short-circuit evaluation (the second lookup is only reached
when the first is falsy). -/
def manifestEntryFor (m : Manifest) (k : String) : Except Unit String := do
  let a ← jsIndexGroup m.dependencies k
  if jsTruthy a then
    pure (a.getD "")
  else
    let b ← jsIndexGroup m.devDependencies k
    if jsTruthy b then pure (b.getD "") else pure "^"

/-- The regex `/^\d/` test. -/
def startsWithDigit (s : String) : Bool :=
  match s.toList with
  | c :: _ => c.isDigit
  | [] => false

/-- Lines 217–223: the install argument pushed for one plan entry,
`packageName@latestVersion` when the manifest entry is pinned to a digit,
`packageName@^latestVersion` otherwise. -/
def installParamFor (m : Manifest) (dep : PlanEntry) : Except Unit String := do
  let e ← manifestEntryFor m dep.packageName
  pure (dep.packageName ++ "@" ++ (if startsWithDigit e then "" else "^")
    ++ jsToString dep.latestVersion)

/-- The `removeSync` effect and install argument of one `forEach` body
(lines 212–224): the directory removal happens, then the argument is built. -/
def installStepFor (root : String) (m : Manifest) (dep : PlanEntry) :
    Except Unit (Effect × String) := do
  let p ← installParamFor m dep
  pure (.removeDir (nodeModulesPath root dep.packageName), p)

/-- Lines 203–228 for one group: skip when empty, otherwise one `removeSync`
per entry followed by a single batched `spawn` of the package manager. -/
def groupInstall (packager : Packager) (root : String) (m : Manifest) (group : Group)
    (entries : List PlanEntry) : Except Unit (List Effect) :=
  if entries = [] then
    pure []
  else do
    let steps ← entries.mapM (installStepFor root m)
    pure (steps.map Prod.fst
      ++ [.spawnCmd packager (installBaseParams packager group ++ steps.map Prod.snd)])

/-- The whole group loop of lines 203–228, `dependencies` first. -/
def installAllGroups (packager : Packager) (root : String) (m : Manifest)
    (st : ScanState) : Except Unit (List Effect) := do
  let e1 ← groupInstall packager root m .dependencies st.dependencies
  let e2 ← groupInstall packager root m .devDependencies st.devDependencies
  pure (e1 ++ e2)

/-- The result of a completed (non-throwing) run: the final plan lists, the
console output and the external side effects, in order. -/
structure RunResult where
  planDependencies : List PlanEntry
  planDevDependencies : List PlanEntry
  output : List String
  effects : List Effect
deriving DecidableEq, Repr

/-- Lines 187–231: the execute phase (`--install` present and a plan exists):
the legacy `@quasar/app` removal first when flagged, then the per-group
installs, then the success log. -/
def executePhase (packager : Packager) (root : String) (m : Manifest)
    (st : ScanState) : Except Unit RunResult := do
  let pre := if st.removeDeprecatedAppPkg then removeAppEffects packager root else []
  let effs ← installAllGroups packager root m st
  pure { planDependencies := st.dependencies,
         planDevDependencies := st.devDependencies,
         output := st.output ++ ["Successfully upgraded Quasar packages.\n"],
         effects := pre ++ effs }

/-- The scan state at the top of `upgradeQuasar` (lines 112–124). -/
def initialScanState (packager : Packager) : ScanState :=
  { dependencies := [], devDependencies := [],
    updateAvailable := false, removeDeprecatedAppPkg := false,
    output := ["Gathering information with " ++ packager.name ++ "..."] }

/-- `upgradeQuasar()` (lines 111–232), as a function of its collaborators. -/
def upgradeQuasar (argv : Argv) (packager : Packager) (root : String) (m : Manifest)
    (getPkgVersion : String → Option String) (registry : String → Option JVal) :
    Except Unit RunResult :=
  match scanAll argv packager registry getPkgVersion m (initialScanState packager) with
  | .error e => .error e
  | .ok st =>
      if st.updateAvailable = false then
        .ok { planDependencies := st.dependencies,
              planDevDependencies := st.devDependencies,
              output := st.output ++ [congratsLine], effects := [] }
      else if argv.install = false then
        .ok { planDependencies := st.dependencies,
              planDevDependencies := st.devDependencies,
              output := st.output ++ previewLines argv, effects := [] }
      else
        executePhase packager root m st

/-- Projection helpers over a run outcome (an aborted run has no result). -/
def runOutput : Except Unit RunResult → List String
  | .ok r => r.output
  | .error _ => []

def runEffects : Except Unit RunResult → List Effect
  | .ok r => r.effects
  | .error _ => []

/-! ## The extension resolver (`resolve-extension.js`) -/

/-- `const extensions = [ '', '.js', '.ts', '.jsx', '.tsx']` -/
def extensions : List String := ["", ".js", ".ts", ".jsx", ".tsx"]

/-- The `for (ext of extensions)` loop body: first `file + ext` whose
existence check succeeds. -/
def resolveExtensionGo (existsFS : String → Bool) (file : String) :
    List String → Option String
  | [] => none
  | ext :: rest =>
      let entry := file ++ ext
      if existsFS entry = true then some entry else resolveExtensionGo existsFS file rest

/-- `resolveExtension (file)`, with the filesystem existence check
(`existsSync`) passed in as a predicate. Falls off the loop with
`undefined` (`none`) when no candidate exists. -/
def resolveExtension (existsFS : String → Bool) (file : String) : Option String :=
  resolveExtensionGo existsFS file extensions

/-! ## Auxiliary lemmas -/

theorem spanDigits_append_eq : ∀ l : List Char, (spanDigits l).1 ++ (spanDigits l).2 = l
  | [] => rfl
  | c :: cs => by
      by_cases h : c.isDigit <;> simp [spanDigits, h, spanDigits_append_eq cs]

theorem spanDigits_digits_append (d r : List Char) (hd : ∀ c ∈ d, c.isDigit = true) :
    spanDigits (d ++ r) = (d ++ (spanDigits r).1, (spanDigits r).2) := by
  induction d with
  | nil => simp
  | cons c cs ih =>
      simp [spanDigits, hd c (by simp),
        ih (fun x hx => hd x (by simp [hx]))]

theorem isPrefixOf_append_self : ∀ l t : List Char, l.isPrefixOf (l ++ t) = true
  | [], _ => by simp [List.isPrefixOf]
  | c :: cs, t => by simp [List.isPrefixOf, isPrefixOf_append_self cs t]

theorem append_drop_of_isPrefixOf :
    ∀ {l s : List Char}, l.isPrefixOf s = true → s = l ++ s.drop l.length
  | [], s, _ => by simp
  | c :: cs, [], h => by simp [List.isPrefixOf] at h
  | c :: cs, b :: bs, h => by
      have h' := h
      simp only [List.isPrefixOf, Bool.and_eq_true, beq_iff_eq] at h'
      obtain ⟨rfl, h2⟩ := h'
      simpa using congrArg (List.cons c) (append_drop_of_isPrefixOf h2)

theorem eq_of_expectDot {l r : List Char} (h : expectDot l = some r) : l = '.' :: r := by
  unfold expectDot at h
  split at h
  · cases h; rfl
  · exact absurd h (by simp)

/-- Unfolding `getLatestVersion` for an npm-shaped array payload and a
current version matched by `versionRegex`. -/
theorem getLatestVersion_npm_arr (argv : Argv) (cands : List JVal) (cv : String)
    (maj : List Char) (tag : Option (List Char))
    (hcv : matchVersionRegex cv.toList = some (maj, tag)) :
    getLatestVersion argv .npm (some (.arr cands)) (some cv)
      = .ok ((cands.filter fun v =>
          testSelect argv.major maj (tag.isSome || argv.prerelease)
            (jsToString v).toList).getLast?.getD .undefined) := by
  simp only [String.toList] at hcv
  simp [getLatestVersion, JVal.getField, JVal.strictEqStr, hcv, JVal.filterJS,
    JVal.lastIndexed, Bind.bind, Except.bind, pure, Except.pure, String.toList]

/-! ## Claim C1 -/

/-- C1: for a present `currentVersion` with no pre-release tag and
`allowPrerelease` unset, the matching rule of `selectLatest`
(`getLatestVersion`) fixes the major component to the current major — any
accepted candidate starts with `major.` — unless `allowMajorBump`
(`argv.major`) is set, in which case the rule is independent of the current
major; the candidates are filtered in their given order and the last match
is returned; with `currentVersion = "1.2.3"`, no policy flags, and
candidates `["1.2.2","1.2.3","1.2.4","2.0.0"]` the result is `"1.2.4"`, and
with `allowMajorBump` set it is `"2.0.0"`. -/
theorem C1_fixed_major_filter_last (argv : Argv) (cv : String) (maj : List Char)
    (cands : List String)
    (hpre : argv.prerelease = false)
    (hcv : matchVersionRegex cv.toList = some (maj, none)) :
    getLatestVersion argv .npm (some (.arr (cands.map JVal.str))) (some cv)
      = .ok ((((cands.filter fun s =>
            testSelect argv.major maj false s.toList).getLast?).map JVal.str).getD .undefined)
    ∧ (∀ s : List Char, testSelect false maj false s = true →
        (maj ++ ['.']).isPrefixOf s = true)
    ∧ (∀ (maj' : List Char) (pre : Bool) (s : List Char),
        testSelect true maj pre s = testSelect true maj' pre s)
    ∧ getLatestVersion ⟨false, false, false⟩ .npm
        (some (.arr [.str "1.2.2", .str "1.2.3", .str "1.2.4", .str "2.0.0"]))
        (some "1.2.3") = .ok (.str "1.2.4")
    ∧ getLatestVersion ⟨false, false, true⟩ .npm
        (some (.arr [.str "1.2.2", .str "1.2.3", .str "1.2.4", .str "2.0.0"]))
        (some "1.2.3") = .ok (.str "2.0.0") := by
  refine ⟨?_, ?_, ?_, by decide, by decide⟩
  · rw [getLatestVersion_npm_arr argv _ cv maj none hcv]
    simp only [Option.isSome_none, hpre, Bool.or_false]
    rw [List.filter_map, List.getLast?_map]
    congr 1
  · intro s h
    unfold testSelect at h
    simp only [Bool.false_eq_true, if_false] at h
    by_cases hp : maj.isPrefixOf s = true
    · rw [if_pos hp] at h
      rcases he : expectDot (s.drop maj.length) with _ | r2
      · simp [he] at h
      · have h2 := eq_of_expectDot he
        have hs := append_drop_of_isPrefixOf hp
        rw [h2] at hs
        rw [show maj ++ '.' :: r2 = (maj ++ ['.']) ++ r2 by simp] at hs
        rw [hs]
        exact isPrefixOf_append_self _ _
    · rw [if_neg hp] at h; simp at h
  · intro maj' pre s; rfl

/-- Witness for C1: the general rule instantiated at the spec's example. -/
theorem C1_witness :
    getLatestVersion ⟨false, false, false⟩ .npm
      (some (.arr (["1.2.2", "1.2.3", "1.2.4", "2.0.0"].map JVal.str)))
      (some "1.2.3")
      = .ok ((((["1.2.2", "1.2.3", "1.2.4", "2.0.0"].filter fun s =>
          testSelect false ['1'] false s.toList).getLast?).map JVal.str).getD .undefined) :=
  (C1_fixed_major_filter_last ⟨false, false, false⟩ "1.2.3" ['1']
    ["1.2.2", "1.2.3", "1.2.4", "2.0.0"] rfl (by decide)).1

/-! ## Claim C2 -/

/-- Evaluation of the selection test on a string of the shape
`MAJOR.minor.patch` followed by an arbitrary remainder `r`: in pre-release
mode the test always succeeds; in exact mode it succeeds exactly when the
remainder past the greedy third digit run is empty. -/
theorem testSelect_eval (maj d2 d3 r : List Char) (pre : Bool)
    (h2 : d2 ≠ []) (h3 : d3 ≠ [])
    (hd2 : ∀ c ∈ d2, c.isDigit = true) (hd3 : ∀ c ∈ d3, c.isDigit = true) :
    testSelect false maj pre (maj ++ '.' :: (d2 ++ '.' :: (d3 ++ r)))
      = (pre || decide ((spanDigits r).2 = [])) := by
  have hdot : ('.' : Char).isDigit = false := by decide
  unfold testSelect
  simp only [Bool.false_eq_true, if_false]
  rw [if_pos (isPrefixOf_append_self maj _), List.drop_left]
  simp only [expectDot, spanDigits_digits_append d2 ('.' :: (d3 ++ r)) hd2,
    spanDigits, hdot, if_false, List.append_nil,
    spanDigits_digits_append d3 r hd3]
  simp [h2, h3]
  cases pre <;> simp [spanDigits_digits_append d3 r hd3, h3]

/-- Counterexample to C2 as stated: the claim says a trailing pre-release
tag must be drawn exactly from `alpha|beta|rc` and that no other suffix
qualifies, but the pre-release form of the selection regex has no end
anchor, so the candidate `"1.2.4-zzz"` qualifies (and is returned) under
`currentVersion = "1.2.3-beta"` with `allowPrerelease = false`. -/
theorem C2_counterexample :
    getLatestVersion ⟨false, false, false⟩ .npm
      (some (.arr [.str "1.2.4-zzz"])) (some "1.2.3-beta")
      = .ok (.str "1.2.4-zzz") := by decide

/-- C2 (amended): when the current version carries a pre-release tag or
`allowPrerelease` is set, the matching rule only requires the candidate to
begin with `MAJOR.minor.patch` — the `-?(alpha|beta|rc)?` tail of the
pattern is optional and the pattern has no end anchor, so a candidate with
any suffix (not only `alpha`/`beta`/`rc`) qualifies; otherwise the rule is
an exact, end-anchored `MAJOR.minor.patch`. In particular, with
`currentVersion = "1.2.3-beta"` (which `versionRegex` parses with tag
`beta`) and `allowPrerelease = false`, pre-release-suffixed candidates
still qualify and `"1.2.4-beta"` is selected when it is last in order. -/
theorem C2_amended_rule :
    (∀ (maj d2 d3 r : List Char), d2 ≠ [] → d3 ≠ [] →
        (∀ c ∈ d2, c.isDigit = true) → (∀ c ∈ d3, c.isDigit = true) →
        testSelect false maj true (maj ++ '.' :: (d2 ++ '.' :: (d3 ++ r))) = true)
    ∧ (∀ (maj d2 d3 : List Char) (c : Char) (r : List Char), d2 ≠ [] → d3 ≠ [] →
        (∀ x ∈ d2, x.isDigit = true) → (∀ x ∈ d3, x.isDigit = true) →
        c.isDigit = false →
        testSelect false maj false (maj ++ '.' :: (d2 ++ '.' :: (d3 ++ c :: r))) = false)
    ∧ (∀ (maj d2 d3 : List Char), d2 ≠ [] → d3 ≠ [] →
        (∀ x ∈ d2, x.isDigit = true) → (∀ x ∈ d3, x.isDigit = true) →
        testSelect false maj false (maj ++ '.' :: (d2 ++ '.' :: d3)) = true)
    ∧ matchVersionRegex "1.2.3-beta".toList = some (['1'], some "beta".toList)
    ∧ getLatestVersion ⟨false, false, false⟩ .npm
        (some (.arr [.str "1.2.3-beta", .str "1.2.4-beta"])) (some "1.2.3-beta")
        = .ok (.str "1.2.4-beta") := by
  refine ⟨?_, ?_, ?_, by decide, by decide⟩
  · intro maj d2 d3 r h2 h3 hd2 hd3
    rw [testSelect_eval maj d2 d3 r true h2 h3 hd2 hd3]
    rfl
  · intro maj d2 d3 c r h2 h3 hd2 hd3 hc
    rw [testSelect_eval maj d2 d3 (c :: r) false h2 h3 hd2 hd3]
    simp [spanDigits, hc]
  · intro maj d2 d3 h2 h3 hd2 hd3
    have := testSelect_eval maj d2 d3 [] false h2 h3 hd2 hd3
    simpa [spanDigits] using this

/-- Witness for the amended C2: the suffix `-zzz` (not a pre-release tag)
qualifies under the pre-release rule. -/
theorem C2_amended_witness :
    testSelect false ['1'] true "1.2.4-zzz".toList = true :=
  (C2_amended_rule).1 ['1'] ['2'] ['4'] "-zzz".toList (by decide) (by decide)
    (by decide) (by decide)

/-! ## Claim C3 -/

/-- C3: when `currentVersion` is absent, `getLatestVersion` ignores both
policy flags entirely (the result is the same for every `argv`) and returns
the last element of the candidate list — for both registry shapes — with the
absent value (`undefined`) when the list is empty. -/
theorem C3_absent_current_returns_last :
    (∀ (a a' : Argv) (pk : Packager) (ro : Option JVal),
        getLatestVersion a pk ro none = getLatestVersion a' pk ro none)
    ∧ (∀ (a : Argv) (cands : List JVal),
        getLatestVersion a .npm (some (.arr cands)) none
          = .ok ((cands.getLast?).getD .undefined))
    ∧ (∀ (a : Argv) (cands : List JVal),
        getLatestVersion a .yarn (some (.obj [("data", .arr cands)])) none
          = .ok ((cands.getLast?).getD .undefined))
    ∧ (∀ (a : Argv), getLatestVersion a .npm (some (.arr [])) none = .ok .undefined) := by
  refine ⟨?_, ?_, ?_, ?_⟩
  · intro a a' pk ro; rfl
  · intro a cands; rfl
  · intro a cands; rfl
  · intro a; rfl

/-! ## Claim C4 -/

/-- C4: the registry adapter of `getLatestVersion` returns `null` — and in
particular does not throw — whenever the package-manager invocation fails or
its output is not parseable as JSON (the catch branch, modelled by
`registryOutcome = none`), and likewise when the parsed payload is an error
envelope (an object whose `type` field is the string `"error"`), for every
package manager, policy, and current version. -/
theorem C4_registry_failure_yields_null :
    (∀ (a : Argv) (pk : Packager) (cv : Option String),
        getLatestVersion a pk none cv = .ok .null)
    ∧ (∀ (a : Argv) (pk : Packager) (cv : Option String) (fs : List (String × JVal)),
        fs.lookup "type" = some (.str "error") →
        getLatestVersion a pk (some (.obj fs)) cv = .ok .null) := by
  constructor
  · intro a pk cv; rfl
  · intro a pk cv fs h
    simp [getLatestVersion, JVal.getField, h, JVal.strictEqStr, Bind.bind, Except.bind,
      pure, Except.pure]

/-- Witness for C4: a failed invocation and an error envelope, both with
inputs that would otherwise be hostile (unparseable current version). -/
theorem C4_witness :
    getLatestVersion ⟨false, false, false⟩ .yarn none (some "not-a-version") = .ok .null
    ∧ getLatestVersion ⟨true, true, true⟩ .yarn
        (some (.obj [("type", .str "error"), ("data", .arr [])])) none = .ok .null :=
  ⟨(C4_registry_failure_yields_null).1 ⟨false, false, false⟩ .yarn (some "not-a-version"),
   (C4_registry_failure_yields_null).2 ⟨true, true, true⟩ .yarn none
     [("type", .str "error"), ("data", .arr [])] (by decide)⟩

/-! ## Claim C5 -/

theorem plan_addOutput (st : ScanState) (ls : List String) (g : Group) :
    (st.addOutput ls).plan g = st.plan g := by cases g <;> rfl

theorem plan_pushEntry_self (st : ScanState) (g : Group) (e : PlanEntry) :
    (st.pushEntry g e).plan g = st.plan g ++ [e] := by cases g <;> rfl

/-- C5: during a scan step whose `getLatestVersion` call returned the value
`lv`, an entry is appended to the group's upgrade plan if and only if `lv`
is not `null` (a latest version was determined — the registry query did not
return unavailable) and `lv` is strictly different from the currently
installed version; `curVersion` may be absent (`Missing!`), in which case
the strict comparison is against `null` and the package remains eligible. -/
theorem C5_plan_entry_iff (argv : Argv) (pk : Packager) (registry : String → Option JVal)
    (group : Group) (packageName : String) (curVersion : Option String)
    (st st' : ScanState) (lv : JVal)
    (hlv : getLatestVersion argv pk (registry packageName) curVersion = .ok lv)
    (hrun : scanStep2 argv pk registry group packageName curVersion st = .ok st') :
    (st'.plan group = st.plan group ++ [⟨packageName, lv⟩]
       ∨ st'.plan group = st.plan group)
    ∧ (st'.plan group = st.plan group ++ [⟨packageName, lv⟩]
        ↔ (lv ≠ JVal.null ∧ jsStrictNe curVersion lv = true)) := by
  have hne : st.plan group ++ [(⟨packageName, lv⟩ : PlanEntry)] ≠ st.plan group := by
    intro h
    have := congrArg List.length h
    simp at this
  unfold scanStep2 at hrun
  rw [hlv] at hrun
  simp only [Bind.bind, Except.bind] at hrun
  by_cases h0 : lv = JVal.null
  · rw [if_pos h0] at hrun
    simp only [pure, Except.pure, Except.ok.injEq] at hrun
    subst hrun
    refine ⟨Or.inr (plan_addOutput st _ group), ?_⟩
    rw [plan_addOutput]
    constructor
    · intro h; exact absurd h.symm hne
    · rintro ⟨h, -⟩; exact absurd h0 h
  · rw [if_neg h0] at hrun
    by_cases h1 : jsStrictNe curVersion lv = true
    · rw [if_pos h1] at hrun
      simp only [pure, Except.pure, Except.ok.injEq] at hrun
      subst hrun
      rw [plan_addOutput, plan_pushEntry_self]
      exact ⟨Or.inl rfl, by simp [h0, h1]⟩
    · rw [if_neg h1] at hrun
      simp only [pure, Except.pure, Except.ok.injEq] at hrun
      subst hrun
      refine ⟨Or.inr rfl, ?_⟩
      constructor
      · intro h; exact absurd h.symm hne
      · rintro ⟨-, h⟩; exact absurd h h1

/-- Witness for C5: a package with no installed version (`Missing!` state)
and a determined latest version is appended to the plan. -/
theorem C5_witness :
    ((((initialScanState .npm).pushEntry .dependencies
        ⟨"quasar", .str "1.0.0"⟩).addOutput
        [" quasar: Missing! → 1.0.0"]).plan .dependencies
      = (initialScanState .npm).plan .dependencies ++ [⟨"quasar", .str "1.0.0"⟩])
    ∧ (JVal.str "1.0.0" ≠ JVal.null ∧ jsStrictNe none (.str "1.0.0") = true) := by
  have h := C5_plan_entry_iff ⟨false, false, false⟩ .npm
    (fun _ => some (.arr [.str "1.0.0"])) .dependencies "quasar" none
    (initialScanState .npm)
    ((((initialScanState .npm).pushEntry .dependencies
        ⟨"quasar", .str "1.0.0"⟩).addOutput
        [" quasar: Missing! → 1.0.0"]))
    (.str "1.0.0") rfl rfl
  exact ⟨h.2.mpr ⟨by decide, by decide⟩, by decide, by decide⟩

/-! ## Claim C6 -/

/-- `updateAvailable` is only ever set together with a plan push, so a set
flag means some group's plan is non-empty. -/
def flagInv (st : ScanState) : Prop :=
  st.updateAvailable = true → (st.dependencies ≠ [] ∨ st.devDependencies ≠ [])

theorem flagInv_scanStep2 (argv : Argv) (pk : Packager) (registry : String → Option JVal)
    (group : Group) (n : String) (cur : Option String) (st st' : ScanState)
    (h : scanStep2 argv pk registry group n cur st = .ok st') (hinv : flagInv st) :
    flagInv st' := by
  unfold scanStep2 at h
  rcases hg : getLatestVersion argv pk (registry n) cur with e | lv
  · rw [hg] at h; simp [Bind.bind, Except.bind] at h
  · rw [hg] at h
    simp only [Bind.bind, Except.bind] at h
    split at h
    · simp only [pure, Except.pure, Except.ok.injEq] at h; subst h; exact hinv
    · split at h
      · simp only [pure, Except.pure, Except.ok.injEq] at h; subst h
        intro _
        cases group <;> simp [ScanState.pushEntry, ScanState.addOutput]
      · simp only [pure, Except.pure, Except.ok.injEq] at h; subst h; exact hinv

theorem flagInv_scanPackage (argv : Argv) (pk : Packager) (registry : String → Option JVal)
    (gpv : String → Option String) (group : Group) (st st' : ScanState) (n : String)
    (h : scanPackage argv pk registry gpv group st n = .ok st') (hinv : flagInv st) :
    flagInv st' := by
  unfold scanPackage at h
  by_cases hq : isQuasarPackage n = false
  · rw [if_pos hq] at h
    simp only [pure, Except.pure, Except.ok.injEq] at h
    subst h; exact hinv
  · rw [if_neg hq] at h
    dsimp only at h
    split at h
    · exact flagInv_scanStep2 _ _ _ _ _ _ _ _ h hinv
    · exact flagInv_scanStep2 _ _ _ _ _ _ _ _ h hinv

theorem flagInv_scanGroup (argv : Argv) (pk : Packager) (registry : String → Option JVal)
    (gpv : String → Option String) (group : Group) :
    ∀ (names : List String) (st st' : ScanState),
      scanGroup argv pk registry gpv group names st = .ok st' →
      flagInv st → flagInv st'
  | [], st, st', h, hinv => by
      simp only [scanGroup, List.foldlM, pure, Except.pure, Except.ok.injEq] at h
      subst h; exact hinv
  | n :: ns, st, st', h, hinv => by
      simp only [scanGroup, List.foldlM, Bind.bind, Except.bind] at h
      rcases hp : scanPackage argv pk registry gpv group st n with e | st1
      · rw [hp] at h; cases h
      · rw [hp] at h
        exact flagInv_scanGroup argv pk registry gpv group ns st1 st' h
          (flagInv_scanPackage argv pk registry gpv group st st1 n hp hinv)

theorem flagInv_scanAll (argv : Argv) (pk : Packager) (registry : String → Option JVal)
    (gpv : String → Option String) (m : Manifest) (st st' : ScanState)
    (h : scanAll argv pk registry gpv m st = .ok st') (hinv : flagInv st) :
    flagInv st' := by
  unfold scanAll at h
  simp only [Bind.bind, Except.bind] at h
  rcases h1 : scanGroup argv pk registry gpv .dependencies (m.groupKeys .dependencies) st
    with e | st1
  · rw [h1] at h; cases h
  · rw [h1] at h
    exact flagInv_scanGroup argv pk registry gpv .devDependencies _ st1 st' h
      (flagInv_scanGroup argv pk registry gpv .dependencies _ st st1 h1 hinv)

/-- C6: if a completed run produced no plan entries in either group, the
report contains the verbatim line `"  Congrats! All Quasar packages are up
to date.\n"` — which carries the exact phrase
`Congrats! All Quasar packages are up to date.` — and the run performed no
effects at all: no install or uninstall invocation and no filesystem
deletion. -/
theorem C6_up_to_date_report (argv : Argv) (pk : Packager) (root : String)
    (m : Manifest) (gpv : String → Option String) (registry : String → Option JVal)
    (r : RunResult)
    (hrun : upgradeQuasar argv pk root m gpv registry = .ok r)
    (h1 : r.planDependencies = []) (h2 : r.planDevDependencies = []) :
    congratsLine ∈ r.output
    ∧ congratsLine = "  " ++ "Congrats! All Quasar packages are up to date." ++ "\n"
    ∧ r.effects = [] := by
  unfold upgradeQuasar at hrun
  rcases hscan : scanAll argv pk registry gpv m (initialScanState pk) with e | st
  · rw [hscan] at hrun; cases hrun
  · rw [hscan] at hrun
    dsimp only at hrun
    have hinv : flagInv st :=
      flagInv_scanAll argv pk registry gpv m _ st hscan (fun h => by simp [initialScanState] at h)
    by_cases hua : st.updateAvailable = false
    · rw [if_pos hua] at hrun
      cases hrun
      refine ⟨?_, rfl, rfl⟩
      simp
    · rw [if_neg hua] at hrun
      have hplans := hinv (by simpa using hua)
      by_cases hins : argv.install = false
      · rw [if_pos hins] at hrun
        cases hrun
        simp only at h1 h2
        rcases hplans with h | h
        · exact absurd h1 h
        · exact absurd h2 h
      · rw [if_neg hins] at hrun
        unfold executePhase at hrun
        simp only [Bind.bind, Except.bind] at hrun
        rcases hi : installAllGroups pk root m st with e | effs
        · rw [hi] at hrun; cases hrun
        · rw [hi] at hrun
          simp only [pure, Except.pure, Except.ok.injEq] at hrun
          subst hrun
          simp only at h1 h2
          rcases hplans with h | h
          · exact absurd h1 h
          · exact absurd h2 h

/-- Witness for C6: a concrete run in which the single managed package is
already current. -/
theorem C6_witness :
    congratsLine ∈ runOutput (upgradeQuasar ⟨false, false, false⟩ .npm "/proj"
      ⟨some [("quasar", "^1.0.0")], some []⟩
      (fun n => if n = "quasar" then some "1.0.0" else none)
      (fun n => if n = "quasar" then some (.arr [.str "1.0.0"]) else none))
    ∧ runEffects (upgradeQuasar ⟨false, false, false⟩ .npm "/proj"
      ⟨some [("quasar", "^1.0.0")], some []⟩
      (fun n => if n = "quasar" then some "1.0.0" else none)
      (fun n => if n = "quasar" then some (.arr [.str "1.0.0"]) else none)) = [] := by
  have h := C6_up_to_date_report ⟨false, false, false⟩ .npm "/proj"
    ⟨some [("quasar", "^1.0.0")], some []⟩
    (fun n => if n = "quasar" then some "1.0.0" else none)
    (fun n => if n = "quasar" then some (.arr [.str "1.0.0"]) else none)
    _ rfl rfl rfl
  exact ⟨h.1, h.2.2⟩

/-! ## Claim C7 -/

/-- A successful `versionRegex` match decomposes the string as the major
digit run, a dot, and a remainder. -/
theorem matchVersionRegex_major_shape {l d1 : List Char} {tg : Option (List Char)}
    (h : matchVersionRegex l = some (d1, tg)) : ∃ r, l = d1 ++ '.' :: r := by
  unfold matchVersionRegex at h
  by_cases h1 : (spanDigits l).1 = []
  · rw [if_pos h1] at h; cases h
  · rw [if_neg h1] at h
    rcases he : expectDot (spanDigits l).2 with _ | r2
    · rw [he] at h; cases h
    · rw [he] at h
      dsimp only at h
      have hd : d1 = (spanDigits l).1 := by
        by_cases h2 : (spanDigits r2).1 = []
        · rw [if_pos h2] at h; cases h
        · rw [if_neg h2] at h
          rcases he2 : expectDot (spanDigits r2).2 with _ | r4
          · rw [he2] at h; cases h
          · rw [he2] at h
            dsimp only at h
            by_cases h3 : (spanDigits r4).1 = []
            · rw [if_pos h3] at h; cases h
            · rw [if_neg h3] at h
              cases h; rfl
      refine ⟨r2, ?_⟩
      rw [hd, ← eq_of_expectDot he, spanDigits_append_eq]

/-- C7: (a) when the scanned package is `@quasar/app` and its installed
version's major component (as parsed by `versionRegex`) is `3`, the scan
iteration proceeds exactly as for the substituted successor name
`@quasar/app-webpack` with the legacy-removal flag set; (b) in the execute
phase with that flag set, the effect trace starts with the removal of the
legacy package's installed files followed by its uninstall command, before
every install invocation of the run. -/
theorem C7_legacy_rename_and_order :
    (∀ (argv : Argv) (pk : Packager) (registry : String → Option JVal)
        (gpv : String → Option String) (group : Group) (st : ScanState)
        (v : String) (tg : Option (List Char)),
        gpv "@quasar/app" = some v →
        matchVersionRegex v.toList = some (['3'], tg) →
        scanPackage argv pk registry gpv group st "@quasar/app"
          = scanStep2 argv pk registry group "@quasar/app-webpack" (some v)
              { st with removeDeprecatedAppPkg := true })
    ∧ (∀ (pk : Packager) (root : String) (m : Manifest) (st : ScanState)
        (effs : List Effect) (r : RunResult),
        st.removeDeprecatedAppPkg = true →
        installAllGroups pk root m st = .ok effs →
        executePhase pk root m st = .ok r →
        r.effects = Effect.removeDir (nodeModulesPath root "@quasar/app")
          :: Effect.spawnCmd pk (removeAppParams pk) :: effs) := by
  constructor
  · intro argv pk registry gpv group st v tg hv hmaj
    obtain ⟨r2, hl⟩ := matchVersionRegex_major_shape hmaj
    have hvne : v ≠ "" := by
      intro he
      rw [he] at hl
      simp [String.toList] at hl
    have hsw : jsStartsWith v "3." = true := by
      unfold jsStartsWith
      rw [hl]
      have h32 : (['3'] ++ '.' :: r2 : List Char) = "3.".toList ++ r2 := by
        simp [String.toList]
      rw [h32]
      exact isPrefixOf_append_self _ _
    unfold scanPackage
    rw [if_neg (by decide)]
    dsimp only
    rw [hv, if_pos (by simp [hsw, bne_iff_ne, hvne])]
  · intro pk root m st effs r hflag hi hexec
    unfold executePhase at hexec
    simp only [Bind.bind, Except.bind] at hexec
    rw [hi] at hexec
    simp only [pure, Except.pure, Except.ok.injEq] at hexec
    subst hexec
    simp [hflag, removeAppEffects]

/-- Witness for C7: a `@quasar/app` at version `3.5.0` is renamed and
flagged, and the flagged execute phase removes and uninstalls the legacy
package first. -/
theorem C7_witness :
    (scanPackage ⟨false, false, false⟩ .yarn (fun _ => none) (fun _ => some "3.5.0")
        .devDependencies (initialScanState .yarn) "@quasar/app"
      = scanStep2 ⟨false, false, false⟩ .yarn (fun _ => none) .devDependencies
          "@quasar/app-webpack" (some "3.5.0")
          { initialScanState .yarn with removeDeprecatedAppPkg := true })
    ∧ runEffects (executePhase .yarn "/proj" ⟨some [], some []⟩
        { initialScanState .yarn with removeDeprecatedAppPkg := true })
      = [Effect.removeDir (nodeModulesPath "/proj" "@quasar/app"),
         Effect.spawnCmd .yarn (removeAppParams .yarn)] := by
  constructor
  · exact (C7_legacy_rename_and_order).1 ⟨false, false, false⟩ .yarn (fun _ => none)
      (fun _ => some "3.5.0") .devDependencies (initialScanState .yarn) "3.5.0"
      none rfl (by decide)
  · have h := (C7_legacy_rename_and_order).2 .yarn "/proj" ⟨some [], some []⟩
      { initialScanState .yarn with removeDeprecatedAppPkg := true } [] _ rfl rfl rfl
    exact h

/-! ## Claim C8 -/

/-- C8: for every plan entry, the install argument passed to the package
manager is `packageName@latestVersion` (exact pin) when the entry's resolved
manifest string starts with a digit and `packageName@^latestVersion` (caret
range) otherwise; and the resolved manifest string is the package's original
manifest entry whenever one exists (a non-empty entry in `dependencies`,
looked up before `devDependencies`, with `'^'` as the fallback). -/
theorem C8_pinning_style :
    (∀ (m : Manifest) (dep : PlanEntry) (e : String),
        manifestEntryFor m dep.packageName = .ok e →
        installParamFor m dep
          = .ok (dep.packageName ++ "@" ++ (if startsWithDigit e then "" else "^")
              ++ jsToString dep.latestVersion))
    ∧ (∀ (d : List (String × String)) (dd : Option (List (String × String)))
        (k v : String), v ≠ "" → d.lookup k = some v →
        manifestEntryFor ⟨some d, dd⟩ k = .ok v) := by
  constructor
  · intro m dep e h
    unfold installParamFor
    rw [h]
    rfl
  · intro d dd k v hv hk
    unfold manifestEntryFor
    simp [jsIndexGroup, hk, jsTruthy, Bind.bind, Except.bind, bne_iff_ne, hv,
      pure, Except.pure]

/-- Witness for C8: a digit-pinned entry keeps the exact pin, a caret entry
keeps the caret. -/
theorem C8_witness :
    installParamFor ⟨some [("quasar", "1.0.0"), ("@quasar/extras", "^1.4.0")], none⟩
        ⟨"quasar", .str "1.2.0"⟩ = .ok "quasar@1.2.0"
    ∧ installParamFor ⟨some [("quasar", "1.0.0"), ("@quasar/extras", "^1.4.0")], none⟩
        ⟨"@quasar/extras", .str "1.5.0"⟩ = .ok "@quasar/extras@^1.5.0" := by
  constructor
  · rw [(C8_pinning_style).1 ⟨some [("quasar", "1.0.0"), ("@quasar/extras", "^1.4.0")], none⟩
      ⟨"quasar", .str "1.2.0"⟩ "1.0.0" rfl]
    rfl
  · rw [(C8_pinning_style).1 ⟨some [("quasar", "1.0.0"), ("@quasar/extras", "^1.4.0")], none⟩
      ⟨"@quasar/extras", .str "1.5.0"⟩ "^1.4.0" rfl]
    rfl

/-! ## Claim C9 -/

/-- C9: the extension resolver probes, in fixed order, `p`, `p + ".js"`,
`p + ".ts"`, `p + ".jsx"`, `p + ".tsx"`, returns the first candidate the
filesystem reports as existing, returns the absent (non-error) result when
none exists, and in particular returns `p` unchanged whenever `p` itself
exists — regardless of the other candidates. -/
theorem C9_resolve_probe_order (existsFS : String → Bool) (p : String) :
    resolveExtension existsFS p
      = List.find? (fun c => existsFS c)
          [p, p ++ ".js", p ++ ".ts", p ++ ".jsx", p ++ ".tsx"]
    ∧ ((∀ c ∈ [p, p ++ ".js", p ++ ".ts", p ++ ".jsx", p ++ ".tsx"],
          existsFS c = false) → resolveExtension existsFS p = none)
    ∧ (existsFS p = true → resolveExtension existsFS p = some p) := by
  have hp0 : p ++ "" = p := String.append_empty p
  have hfind : resolveExtension existsFS p
      = List.find? (fun c => existsFS c)
          [p, p ++ ".js", p ++ ".ts", p ++ ".jsx", p ++ ".tsx"] := by
    cases h0 : existsFS p <;> cases h1 : existsFS (p ++ ".js") <;>
      cases h2 : existsFS (p ++ ".ts") <;> cases h3 : existsFS (p ++ ".jsx") <;>
      cases h4 : existsFS (p ++ ".tsx") <;>
      simp [resolveExtension, resolveExtensionGo, extensions, List.find?, hp0,
        h0, h1, h2, h3, h4]
  refine ⟨hfind, ?_, ?_⟩
  · intro h
    rw [hfind]
    simp [List.find?, h p (by simp), h (p ++ ".js") (by simp), h (p ++ ".ts") (by simp),
      h (p ++ ".jsx") (by simp), h (p ++ ".tsx") (by simp)]
  · intro h
    rw [hfind]
    simp [List.find?, h]

/-- Witness for C9: `p` exists and `p + ".js"` exists too; `p` wins. -/
theorem C9_witness :
    resolveExtension (fun s => s == "/a/b" || s == "/a/b.js") "/a/b" = some "/a/b" :=
  ((C9_resolve_probe_order (fun s => s == "/a/b" || s == "/a/b.js") "/a/b").2.2) (by decide)

/-! ## Claim C10 -/

/-- Counterexample to C10 as stated: the claim says that for a non-null
`currentVersion` not matching the version pattern the function never
returns a value; but when the registry invocation fails, `getLatestVersion`
returns (`null`) before ever touching `currentVersion`, here for the
unparseable current version `"latest"`. -/
theorem C10_counterexample :
    getLatestVersion ⟨false, false, false⟩ .npm none (some "latest") = .ok JVal.null := rfl

/-- C10 (amended): for a non-null `currentVersion` that does not match the
version pattern, `getLatestVersion` never returns a version: its only
outcomes are the unavailable result `null` (produced by the early registry
branches — failed invocation, unparseable output, or error envelope) and a
throw; with a failed invocation it returns `null`, and with a successful
version-list payload the destructuring of the failed match throws. -/
theorem C10_amended_no_version_for_bad_current (argv : Argv) (pk : Packager)
    (ro : Option JVal) (cv : String)
    (h : matchVersionRegex cv.toList = none) :
    (getLatestVersion argv pk ro (some cv) = .ok JVal.null
      ∨ getLatestVersion argv pk ro (some cv) = .error ())
    ∧ (ro = none → getLatestVersion argv pk ro (some cv) = .ok JVal.null)
    ∧ (∀ cands : List JVal,
        getLatestVersion argv .npm (some (.arr cands)) (some cv) = .error ()) := by
  have h' := h
  simp only [String.toList] at h'
  refine ⟨?_, ?_, ?_⟩
  · rcases ro with _ | v
    · exact Or.inl rfl
    · cases v
      case null => exact Or.inr rfl
      case undefined => exact Or.inr rfl
      case obj fs =>
        by_cases ht : JVal.strictEqStr ((fs.lookup "type").getD .undefined) "error" = true
        · exact Or.inl (by
            simp [getLatestVersion, JVal.getField, ht, Bind.bind, Except.bind,
              pure, Except.pure])
        · exact Or.inr (by
            rcases pk with _ | _ <;>
              simp [getLatestVersion, JVal.getField, ht, h', Bind.bind, Except.bind,
                pure, Except.pure])
      case bool b =>
        exact Or.inr (by
          rcases pk with _ | _ <;>
            simp [getLatestVersion, JVal.getField, JVal.strictEqStr, h', Bind.bind,
              Except.bind, pure, Except.pure])
      case num n =>
        exact Or.inr (by
          rcases pk with _ | _ <;>
            simp [getLatestVersion, JVal.getField, JVal.strictEqStr, h', Bind.bind,
              Except.bind, pure, Except.pure])
      case str s =>
        exact Or.inr (by
          rcases pk with _ | _ <;>
            simp [getLatestVersion, JVal.getField, JVal.strictEqStr, h', Bind.bind,
              Except.bind, pure, Except.pure])
      case arr xs =>
        exact Or.inr (by
          rcases pk with _ | _ <;>
            simp [getLatestVersion, JVal.getField, JVal.strictEqStr, h', Bind.bind,
              Except.bind, pure, Except.pure])
  · intro hro
    subst hro
    rfl
  · intro cands
    simp [getLatestVersion, JVal.getField, JVal.strictEqStr, h', Bind.bind,
      Except.bind, pure, Except.pure]

/-- Witness for the amended C10: `"latest"` with a version-list payload
throws; an empty current version with a failed invocation yields `null`. -/
theorem C10_amended_witness :
    getLatestVersion ⟨true, true, true⟩ .npm (some (.arr [.str "1.0.0"]))
      (some "latest") = .error ()
    ∧ getLatestVersion ⟨true, true, true⟩ .yarn none (some "") = .ok JVal.null := by
  constructor
  · exact (C10_amended_no_version_for_bad_current ⟨true, true, true⟩ .npm
      (some (.arr [.str "1.0.0"])) "latest" (by decide)).2.2 [.str "1.0.0"]
  · exact (C10_amended_no_version_for_bad_current ⟨true, true, true⟩ .yarn
      none "" (by decide)).2.1 rfl

end Quasar

